import Mathlib

/-!
Shallow embedding of `gmail_emulator`'s transformer pipeline
(`src/transformer/enron_transformer.go`) and proofs settling the frozen
claims about it.

Modelling conventions, shared by all definitions below:
* Go strings are modelled as Lean `String` (a wrapper around `List Char`);
  byte-indexed Go operations (`len`, slicing) are modelled on characters,
  which coincides with the source on ASCII input — all concrete inputs used
  in the theorems are ASCII.
* Go `time.Time` is modelled as `Int` (Unix nanoseconds); `time.Duration`
  arithmetic is ordinary `Int` arithmetic.
* The MD5-based identifier helpers and the RFC1123Z time formatter are
  modelled by injective string-tagging stand-ins (`md5hex16`,
  `formatRFC1123Z`, `base64Std`): the source treats the truncated digest as
  collision-free (spec section 3 bounds collisions by the hash width and does
  not defend further), and no claim depends on the digit content of a digest
  or of a formatted date, only on equality/distinctness, which the injective
  stand-ins preserve.
-/

namespace GmailEmulator

set_option maxRecDepth 16384

/-- Is the list `p` an initial segment of `l`? Models Go

    strings.HasPrefix on the character level. -/
def listStarts : List Char → List Char → Bool
  | _, [] => true
  | [], _ :: _ => false
  | a :: as, b :: bs => a == b && listStarts as bs

/-- Does `p` occur contiguously inside `l`?  Models Go strings.Contains. -/
def listHasSub : List Char → List Char → Bool
  | [], p => p.isEmpty
  | a :: t, p => listStarts (a :: t) p || listHasSub t p

/-- Go `strings.Contains s sub`. -/
def goContains (s sub : String) : Bool := listHasSub s.data sub.data

/-- Go `strings.HasPrefix s p`. -/
def goStarts (s p : String) : Bool := listStarts s.data p.data

/-- Go `strings.HasSuffix s p`. -/
def goEnds (s p : String) : Bool := listStarts s.data.reverse p.data.reverse

/-- The whitespace class of Go `unicode.IsSpace`, restricted to the code
    points the corpus can contain: space, tab, newline, vertical tab, form
    feed, carriage return, NEL and NBSP. Used by strings.TrimSpace. -/
def goSpace (c : Char) : Bool :=
  c == ' ' || c == '\t' || c == '\n' || c == '\r' ||
  c == Char.ofNat 11 || c == Char.ofNat 12 || c == Char.ofNat 133 || c == Char.ofNat 160

/-- The whitespace class of the RE2 Perl class backslash-s:
    tab, newline, form feed, carriage return, space. -/
def reSpace (c : Char) : Bool :=
  c == ' ' || c == '\t' || c == '\n' || c == '\r' || c == Char.ofNat 12

/-- Go `strings.TrimSpace` on the character list. -/
def goTrimL (l : List Char) : List Char :=
  ((l.dropWhile goSpace).reverse.dropWhile goSpace).reverse

/-- Go `strings.TrimSpace`. -/
def goTrimSpace (s : String) : String := ⟨goTrimL s.data⟩

/-- Go `strings.ToLower` (ASCII mapping; all corpus input in the claims is
    ASCII). -/
def lowerStr (s : String) : String := ⟨s.data.map Char.toLower⟩

/-- Lexicographic byte-order comparison used by Go `sort.Strings`. -/
def charsLe : List Char → List Char → Bool
  | [], _ => true
  | _ :: _, [] => false
  | a :: as, b :: bs =>
    if a.val < b.val then true else if b.val < a.val then false else charsLe as bs

/-- `a` is at most `b` in Go string order. -/
def strLe (a b : String) : Bool := charsLe a.data b.data

/-- Insertion step of the model of Go `sort.Strings`. -/
def insStr (x : String) : List String → List String
  | [] => [x]
  | y :: ys => if strLe x y then x :: y :: ys else y :: insStr x ys

/-- Go `sort.Strings`: sorts ascending in byte order. Equal strings are
    identical, so the (unspecified) tie behaviour of Go's unstable sort is
    observationally irrelevant here. -/
def sortStrings (l : List String) : List String := l.foldr insStr []

/-- Split a character list at every occurrence of the character `c`,
    Go `strings.Split` with a one-character separator. Always non-empty. -/
def splitChar (c : Char) : List Char → List (List Char)
  | [] => [[]]
  | x :: xs =>
    match splitChar c xs with
    | [] => [[]]
    | r :: rs => if x == c then [] :: r :: rs else (x :: r) :: rs

/-- Split `l` at the first occurrence of `c`: `some (before, after)` when `c`
    occurs, `none` otherwise. Used to model Go `strings.Index`-based slicing. -/
def breakAt (c : Char) : List Char → Option (List Char × List Char)
  | [] => none
  | x :: xs =>
    if x == c then some ([], xs)
    else
      match breakAt c xs with
      | some (a, b) => some (x :: a, b)
      | none => none

/-- One bounded step list of a Go `strings.ReplaceAll`: `fuel` bounds the
    recursion (always called with the full input length, which suffices since
    each step consumes at least one character for a non-empty pattern). -/
def replaceAllAux : Nat → List Char → List Char → List Char → List Char
  | 0, l, _, _ => l
  | _ + 1, [], _, _ => []
  | n + 1, c :: cs, pat, rep =>
    if !pat.isEmpty && listStarts (c :: cs) pat then
      rep ++ replaceAllAux n ((c :: cs).drop pat.length) pat rep
    else
      c :: replaceAllAux n cs pat rep

/-- Go `strings.ReplaceAll s pat rep` (non-overlapping, left to right). -/
def goReplaceAll (s pat rep : String) : String :=
  ⟨replaceAllAux s.data.length s.data pat.data rep.data⟩

/-! ## Data model (structs of enron_transformer.go) -/

/-- `EnronEmail`. The X-* metadata fields and `FilePath` are never read by
    the transformation functions the claims concern and are omitted;
    `UserFolder` is kept because `inferLabels` reads it. -/
structure EnronEmail where
  MessageID : String
  Date : Int
  From : String
  To : List String
  CC : List String
  BCC : List String
  Subject : String
  Body : String
  UserFolder : String
deriving DecidableEq, Repr

/-- `TestPersona`. `FirstContact` is never written or read and is omitted. -/
structure TestPersona where
  Name : String
  Email : String
  Role : String
  Company : String
deriving DecidableEq, Repr

/-- `Header`. -/
structure Header where
  Name : String
  Value : String
deriving DecidableEq, Repr

/-- `MessageBody`. -/
structure MessageBody where
  Size : Nat
  Data : String
deriving DecidableEq, Repr

/-- `MessagePart`. `Filename` and `Parts` are always zero in the transformer
    and are omitted. -/
structure MessagePart where
  PartId : String
  MimeType : String
  Headers : List Header
  Body : MessageBody
deriving DecidableEq, Repr

/-- `GmailMessage`. -/
structure GmailMessage where
  Id : String
  ThreadId : String
  LabelIds : List String
  Snippet : String
  HistoryId : String
  InternalDate : String
  SizeEstimate : Nat
  Payload : MessagePart
deriving DecidableEq, Repr

/-- `contact` (address with its occurrence count). -/
structure contact where
  email : String
  count : Nat
deriving DecidableEq, Repr

/-- The per-run transformer state the claims touch. The thread cache and the
    message-id cache of the Go struct memoize pure hash computations (the
    cached value always equals the recomputed one), so they are modelled by
    recomputation; `stats` is not read by any claim. The persona map
    (a Go `map[string]TestPersona`) is modelled as an association list whose
    lookup takes the first (most recent) binding. -/
structure GmailTransformer where
  enronUserName : String
  userEmail : String
  timeShift : Int
  personaMap : List (String × TestPersona)
deriving DecidableEq, Repr

/-- `NewGmailTransformer`: the single global time offset is
    `baseDate - enronStart`, where `baseDate` (the wall clock minus three
    years) is passed in as a parameter since it is clock-dependent, and
    `enronStart` is 2000-01-01T00:00:00Z = 946684800e9 ns. -/
def NewGmailTransformer (baseDate : Int) (enronUserName testUserEmail : String) :
    GmailTransformer :=
  ⟨enronUserName, testUserEmail, baseDate - 946684800000000000, []⟩

/-! ## Helper functions of the transformer -/

/-- `extractEmail`: take the text between the first angle brackets, else the
    whole (trimmed) string when it contains an at sign, else empty; always
    lower-cased. -/
def extractEmail (address : String) : String :=
  let fallback : String :=
    if goContains address "@" then lowerStr (goTrimSpace address) else ""
  match breakAt '<' address.data with
  | some (_, rest) =>
    match breakAt '>' rest with
    | some (inner, _) => lowerStr ⟨inner⟩
    | none => fallback
  | none => fallback

/-- The character substitution of `generateNameFromEmail`: dots, underscores
    and hyphens become spaces (three sequential single-character
    strings.ReplaceAll calls). -/
def charSepReplace (c : Char) : Char :=
  if c == '.' || c == '_' || c == '-' then ' ' else c

/-- ASCII word characters of Go strings.Title's separator test
    (letters, digits, underscore). -/
def asciiWordChar (c : Char) : Bool :=
  (48 ≤ c.toNat && c.toNat ≤ 57) || (97 ≤ c.toNat && c.toNat ≤ 122) ||
  (65 ≤ c.toNat && c.toNat ≤ 90) || c.toNat == 95

/-- Go strings.Title's separator test (non-ASCII approximated by
    non-letters; all inputs in the claims are ASCII). -/
def goIsSeparator (c : Char) : Bool :=
  if c.toNat ≤ 127 then !(asciiWordChar c) else !(c.isAlpha)

/-- Character loop of Go `strings.Title`: upper-case every character that
    follows a separator (initial previous character is a space). -/
def titleAux : Char → List Char → List Char
  | _, [] => []
  | prev, c :: cs => (if goIsSeparator prev then c.toUpper else c) :: titleAux c cs

/-- Go `strings.Title`. -/
def goTitle (s : String) : String := ⟨titleAux ' ' s.data⟩

/-- `generateNameFromEmail`: local part of the address with separators
    spaced out and title-cased. (`strings.Split` never returns an empty
    slice, so the Go `len(parts) == 0` branch is dead; it is kept for
    fidelity.) -/
def generateNameFromEmail (email : String) : String :=
  match splitChar '@' email.data with
  | [] => "Unknown"
  | p0 :: _ => goTitle ⟨p0.map charSepReplace⟩

/-- `extractServiceName`: title-case the first label of the domain. The Go
    code indexes `Split(email,"@")[1]` unconditionally; it is only ever
    called on the four fixed service addresses, which all contain both
    separators, so the fallthrough branches are dead. -/
def extractServiceName (email : String) : String :=
  match splitChar '@' email.data with
  | _ :: d :: _ =>
    match splitChar '.' d with
    | n :: _ => goTitle ⟨n⟩
    | [] => ""
  | _ => ""

/-- Injective stand-in for the first 16 hex characters of the MD5 digest of
    `s` (see the header comment). -/
def md5hex16 (s : String) : String := "md5[" ++ s ++ "]"

/-- `generateGmailID`. -/
def generateGmailID (enronMessageID : String) : String := md5hex16 enronMessageID

/-- `generateThreadID`. -/
def generateThreadID (key : String) : String := md5hex16 ("thread:" ++ key)

/-- The five alternatives of the threading-prefix regular expression,
    in source order: Re:, RE:, Fwd:, FW:, Fw:. At most one of them can match
    a given subject, so alternation order is immaterial. -/
def threadPrefixes : List (List Char) :=
  ["Re:".data, "RE:".data, "Fwd:".data, "FW:".data, "Fw:".data]

/-- The anchored regular-expression replacement of
    `cleanSubjectForThreading`: strip one leading exact-case alternative
    together with the following run of regex whitespace. -/
def stripReFwd (l : List Char) : List Char :=
  match threadPrefixes.find? (fun p => listStarts l p) with
  | some p => (l.drop p.length).dropWhile reSpace
  | none => l

/-- `cleanSubjectForThreading`: strip the prefix, trim, lower-case. -/
def cleanSubjectForThreading (subject : String) : String :=
  lowerStr (goTrimSpace ⟨stripReFwd subject.data⟩)

/-- The thread grouping key of `getOrCreateThreadID`: cleaned subject,
    a pipe, and the first three of the byte-sorted participants
    (sender plus To recipients) joined with commas. -/
def getOrCreateThreadKey (e : EnronEmail) : String :=
  cleanSubjectForThreading e.Subject ++ "|" ++
    String.intercalate "," ((sortStrings (e.From :: e.To)).take 3)

/-- `getOrCreateThreadID`. The Go thread cache stores
    `generateThreadID key` at the first miss and returns the stored value on
    every later hit, so the memoized function always returns the recomputed
    pure value; the cache is therefore modelled by recomputation. -/
def getOrCreateThreadID (e : EnronEmail) : String :=
  generateThreadID (getOrCreateThreadKey e)

/-! ## Persona assignment -/

/-- One `contactFreq[k]++` on the Go map, modelled on an insertion-ordered
    association list (the contents of a Go map; its iteration order is
    randomized, see `buildPersonaMap`). -/
def bump : List contact → String → List contact
  | [], k => [⟨k, 1⟩]
  | c :: cs, k =>
    if c.email == k then ⟨c.email, c.count + 1⟩ :: cs else c :: bump cs k

/-- Reading the Go frequency map: the count of `k`, zero when absent. -/
def freqLookup : List contact → String → Nat
  | [], _ => 0
  | c :: cs, k => if c.email == k then c.count else freqLookup cs k

/-- The To-loop body of `buildPersonaMap`'s counting loop: count one
    extracted recipient address, skipping empty extractions and addresses
    containing the owner fragment. -/
def freqToStep (userName : String) (acc : List contact) (toAddr : String) :
    List contact :=
  let a := extractEmail toAddr
  if a != "" && !(goContains a userName) then bump acc a else acc

/-- The body of `buildPersonaMap`'s counting loop for one record: count the
    extracted sender address, then each extracted To address, skipping empty
    extractions and addresses containing the owner fragment.
    CC and BCC are not touched by the source. -/
def freqStep (userName : String) (m : List contact) (e : EnronEmail) : List contact :=
  let sender := extractEmail e.From
  let m1 := if sender != "" && !(goContains sender userName) then bump m sender else m
  e.To.foldl (freqToStep userName) m1

/-- The counting phase of `buildPersonaMap`. -/
def buildContactFreq (userName : String) (emails : List EnronEmail) : List contact :=
  emails.foldl (freqStep userName) []

/-- The fixed persona roster of `assignPersonas`, in source order. -/
def personasRoster : List TestPersona :=
  [⟨"Sarah Chen", "sarah.chen@gmail.com", "sister", ""⟩,
   ⟨"David Kumar", "david.kumar@techcorp.com", "manager", "TechCorp"⟩,
   ⟨"Alex Rivera", "alex.r@gmail.com", "best friend", ""⟩,
   ⟨"Lisa Thompson", "lisa.t@techcorp.com", "colleague", "TechCorp"⟩,
   ⟨"Mom", "mom.wilson@yahoo.com", "family", ""⟩,
   ⟨"Jamie Park", "jamiepark92@gmail.com", "friend", ""⟩,
   ⟨"Michael Chen", "m.chen@techcorp.com", "colleague", "TechCorp"⟩,
   ⟨"Emma Davis", "emma.davis@gmail.com", "friend", ""⟩,
   ⟨"Robert Johnson", "rjohnson@partnerco.com", "client", "PartnerCo"⟩,
   ⟨"Jessica Lee", "jlee@techcorp.com", "colleague", "TechCorp"⟩]

/-- The synthesized persona for rank `i` beyond the roster. -/
def synthPersona (i : Nat) (email : String) : TestPersona :=
  ⟨generateNameFromEmail email, "contact" ++ toString i ++ "@example.com",
   "acquaintance", ""⟩

/-- A Go map store `m[k] = v`: prepending shadows any earlier binding since
    `List.lookup` returns the first match. -/
def mapInsertP (m : List (String × TestPersona)) (k : String) (v : TestPersona) :
    List (String × TestPersona) :=
  (k, v) :: m

/-- The indexed assignment loop of `assignPersonas`: rank `i` gets roster
    entry `i` when it exists, else a synthesized persona. -/
def assignLoop (m : List (String × TestPersona)) (i : Nat) :
    List contact → List (String × TestPersona)
  | [] => m
  | c :: cs =>
    let p :=
      match personasRoster.get? i with
      | some p => p
      | none => synthPersona i c.email
    assignLoop (mapInsertP m c.email p) (i + 1) cs

/-- The four fixed service addresses of `assignPersonas`, in source order. -/
def serviceEmails : List String :=
  ["notifications@github.com", "no-reply@linkedin.com", "united@united.com",
   "alerts@mint.com"]

/-- `assignPersonas`: the ranked assignment loop followed by the
    unconditional service-persona overrides. -/
def assignPersonas (m : List (String × TestPersona)) (contacts : List contact) :
    List (String × TestPersona) :=
  let m1 := assignLoop m 0 contacts
  serviceEmails.foldl
    (fun acc se => mapInsertP acc se ⟨extractServiceName se, se, "service", ""⟩) m1

/-- The comparator passed to `sort.Slice` in `buildPersonaMap`:
    `contacts[i].count > contacts[j].count`. It inspects only the counts —
    the email field is ignored, so equal counts are unordered. -/
def goLessContacts (c d : contact) : Bool := d.count < c.count

/-- A list is a possible output of Go's (unstable) `sort.Slice` with
    `goLessContacts` exactly when no adjacent pair is inverted. -/
def sortedByGoLess : List contact → Bool
  | [] => true
  | [_] => true
  | a :: b :: t => !goLessContacts b a && sortedByGoLess (b :: t)

/-- Insertion step of the model's concrete count-descending sort. -/
def insContact (c : contact) : List contact → List contact
  | [] => [c]
  | d :: ds => if goLessContacts c d then c :: d :: ds else d :: insContact c ds

/-- The model's concrete stand-in for `sort.Slice(contacts, count-descending)`:
    one particular comparator-consistent permutation. The Go code enumerates
    the frequency map in randomized order and sorts unstably, so only
    "comparator-consistent permutation of the entries" is guaranteed; the
    claim C2 theorems quantify over that guarantee, every other claim
    observes only order-insensitive facts (key sets). -/
def sortContacts (l : List contact) : List contact := l.foldr insContact []

/-- `buildPersonaMap`: count, rank, assign. -/
def buildPersonaMap (userName : String) (emails : List EnronEmail) :
    List (String × TestPersona) :=
  assignPersonas [] (sortContacts (buildContactFreq userName emails))

/-! ## Per-record transformation -/

/-- `transformEmailAddress`: owner fragment wins, then the persona map, then
    a synthesized display name at the original domain (unless that domain is
    enron.com, which is replaced by example.com). -/
def transformEmailAddress (t : GmailTransformer) (enronEmail : String) : String :=
  let cleaned := extractEmail enronEmail
  if goContains cleaned t.enronUserName then "You <" ++ t.userEmail ++ ">"
  else
    match List.lookup cleaned t.personaMap with
    | some persona => persona.Name ++ " <" ++ persona.Email ++ ">"
    | none =>
      let name := generateNameFromEmail cleaned
      let domain :=
        match splitChar '@' cleaned.data with
        | _ :: p1 :: _ =>
          if (⟨p1⟩ : String) ≠ "enron.com" then (⟨p1⟩ : String) else "example.com"
        | _ => "example.com"
      name ++ " <" ++ lowerStr name ++ "@" ++ domain ++ ">"

/-- `transformEmailList`. -/
def transformEmailList (t : GmailTransformer) (emails : List String) : String :=
  String.intercalate ", " (emails.map (transformEmailAddress t))

/-- Injective stand-in for `time.Time.Format(time.RFC1123Z)` of the shifted
    timestamp (see the header comment). -/
def formatRFC1123Z (d : Int) : String := "rfc1123z[" ++ toString d ++ "]"

/-- `transformHeaders`: From always; To and Cc only when non-empty; then
    Subject, Date (shifted, RFC1123Z) and Message-ID. The Date header is at
    index 4 only when both To and Cc are present. -/
def transformHeaders (t : GmailTransformer) (e : EnronEmail) : List Header :=
  [⟨"From", transformEmailAddress t e.From⟩]
  ++ (if e.To.isEmpty then [] else [⟨"To", transformEmailList t e.To⟩])
  ++ (if e.CC.isEmpty then [] else [⟨"Cc", transformEmailList t e.CC⟩])
  ++ [⟨"Subject", e.Subject⟩,
      ⟨"Date", formatRFC1123Z (e.Date + t.timeShift)⟩,
      ⟨"Message-ID", "<" ++ generateGmailID e.MessageID ++ "@mail.gmail.com>"⟩]

/-! ## Label inference -/

/-- The important-keyword list of `isImportant`. -/
def importantKeywords : List String :=
  ["urgent", "asap", "important", "critical", "action required", "deadline",
   "immediate", "confidential", "board meeting", "executive"]

/-- `isImportant`: keyword in the lowered subject or the first 200 characters
    of the lowered body, or a high-priority fragment in the sender. -/
def isImportant (e : EnronEmail) : Bool :=
  let subject := lowerStr e.Subject
  let body := lowerStr e.Body
  let bodyHead : String := ⟨body.data.take 200⟩
  importantKeywords.any (fun p => goContains subject p || goContains bodyHead p)
  || goContains e.From "gibner" || goContains e.From "buy" || goContains e.From "lay"

/-- The marketing-indicator list of `isPromotional`. -/
def promoIndicators : List String :=
  ["unsubscribe", "click here", "special offer", "deal", "discount", "sale",
   "free shipping", "act now", "limited time"]

/-- `isPromotional`. -/
def isPromotional (e : EnronEmail) : Bool :=
  let content := lowerStr (e.Subject ++ " " ++ e.Body)
  promoIndicators.any (fun p => goContains content p)

/-- The automated-sender fragment list of `isAutomated`. -/
def automatedPatterns : List String :=
  ["no-reply", "noreply", "donotreply", "notification", "alert", "system",
   "automated", "mailman", "listserv"]

/-- `isAutomated`. -/
def isAutomated (e : EnronEmail) : Bool :=
  let f := lowerStr e.From
  automatedPatterns.any (fun p => goContains f p)

/-- `inferLabels`: UNREAD, SENT/INBOX, first-match folder label, IMPORTANT,
    and PROMOTIONS else UPDATES. -/
def inferLabels (t : GmailTransformer) (e : EnronEmail) : List String :=
  let l := ["UNREAD"]
  let l := l ++ [if goContains e.From t.enronUserName then "SENT" else "INBOX"]
  let folder := lowerStr e.UserFolder
  let l :=
    if goContains folder "trash" || goContains folder "deleted" then l ++ ["TRASH"]
    else if goContains folder "personal" then l ++ ["CATEGORY_PERSONAL"]
    else if goContains folder "travel" then l ++ ["Label_Travel"]
    else if goContains folder "conferences" || goContains folder "meetings" then
      l ++ ["Label_Meetings"]
    else l
  let l := if isImportant e then l ++ ["IMPORTANT"] else l
  if isPromotional e then l ++ ["CATEGORY_PROMOTIONS"]
  else if isAutomated e then l ++ ["CATEGORY_UPDATES"]
  else l

/-! ## Snippet generation -/

/-- Collapse every maximal run of regex whitespace to a single space: the
    backslash-s-plus to single-space replacement of `generateSnippet`.
    The flag records whether the previous character was whitespace. -/
def collapseAux : Bool → List Char → List Char
  | _, [] => []
  | inSpace, c :: cs =>
    if reSpace c then
      (if inSpace then collapseAux true cs else ' ' :: collapseAux true cs)
    else c :: collapseAux false cs

/-- Whitespace collapsing from the start of a line. -/
def collapseWs (l : List Char) : List Char := collapseAux false l

/-- The trimmed, whitespace-collapsed body `generateSnippet` works on. -/
def cleanedBody (body : String) : List Char := collapseWs (goTrimL body.data)

/-- Go `strings.Split(s, "\n")` on character lists. -/
def splitNL (l : List Char) : List (List Char) := splitChar '\n' l

/-- The accumulation loop of `generateSnippet`: stop at a quoted line or the
    original-message marker, append each line plus a space, break once the
    accumulator exceeds 100 characters. -/
def snippetLoop : List (List Char) → String → String
  | [], acc => acc
  | line :: rest, acc =>
    if listStarts line ">".data || listHasSub line "-----Original Message-----".data then
      acc
    else
      let acc2 := acc ++ (⟨line⟩ : String) ++ " "
      if 100 < acc2.length then acc2 else snippetLoop rest acc2

/-- `generateSnippet`: collapse, split, accumulate, truncate to 97 characters
    plus an ellipsis when over 100, and trim. -/
def generateSnippet (body : String) : String :=
  let cleaned := cleanedBody body
  let lines := splitNL cleaned
  let s := snippetLoop lines ""
  let s2 := if 100 < s.length then (⟨s.data.take 97⟩ : String) ++ "..." else s
  goTrimSpace s2

/-! ## Body transformation -/

/-- The quoted-printable/entity replacement pairs of `fixEncoding`, in source
    literal order. The Go code ranges over a map, whose iteration order is
    unspecified; no claim depends on the application order. -/
def fixEncodingPairs : List (String × String) :=
  [("=20", " "), ("=09", "\t"), ("=0A", "\n"), ("=0D", "\r"), ("=3D", "="),
   ("&amp;", "&"), ("&lt;", "<"), ("&gt;", ">")]

/-- `fixEncoding`. -/
def fixEncoding (text : String) : String :=
  fixEncodingPairs.foldl (fun acc pr => goReplaceAll acc pr.1 pr.2) text

/-- The replacement closure `transformBody` applies to each address literal
    matched by its e-mail regular expression: lower-case the match, rewrite
    the owner to the primary identity, rewrite mapped addresses to the
    persona's address, and leave everything else unchanged. Claim C3 is
    settled at this per-literal level. -/
def transformAddressLiteral (t : GmailTransformer) (email : String) : String :=
  let cleaned := lowerStr email
  if goContains cleaned t.enronUserName then t.userEmail
  else
    match List.lookup cleaned t.personaMap with
    | some persona => persona.Email
    | none => email

/-- `transformBody` minus the regex scan: `fixEncoding`, then the
    organization-name replacement. The address-literal rewriting pass is
    modelled per matched literal by `transformAddressLiteral` (no claim
    observes the whole-body scan itself). -/
def transformBody (_t : GmailTransformer) (body : String) : String :=
  let b := fixEncoding body
  let b := goReplaceAll b "Enron" "TechCorp"
  goReplaceAll b "ENRON" "TECHCORP"

/-- Injective stand-in for standard base64 encoding (no claim reads the
    encoded payload data). -/
def base64Std (s : String) : String := "b64[" ++ s ++ "]"

/-- The shifted timestamp `enron.Date.Add(t.timeShift)` of `transformEmail`. -/
def transformShiftedDate (t : GmailTransformer) (e : EnronEmail) : Int :=
  e.Date + t.timeShift

/-- `time.Time.Unix` of a nanosecond timestamp. -/
def goUnix (ns : Int) : Int := ns / 1000000000

/-- `time.Time.UnixMilli` of a nanosecond timestamp. -/
def goUnixMilli (ns : Int) : Int := ns / 1000000

/-- `transformEmail` (its error return is always nil in the source). -/
def transformEmail (t : GmailTransformer) (e : EnronEmail) : GmailMessage :=
  let gmailID := generateGmailID e.MessageID
  let headers := transformHeaders t e
  let threadID := getOrCreateThreadID e
  let body := transformBody t e.Body
  let shifted := transformShiftedDate t e
  ⟨gmailID, threadID, inferLabels t e, generateSnippet body,
   toString (goUnix shifted), toString (goUnixMilli shifted),
   e.Body.length + 512,
   ⟨"", "text/plain", headers, ⟨body.length, base64Std body⟩⟩⟩

/-- Insertion step of the model of the chronological pre-sort. -/
def insByDate (e : EnronEmail) : List EnronEmail → List EnronEmail
  | [] => [e]
  | f :: fs => if e.Date < f.Date then e :: f :: fs else f :: insByDate e fs

/-- The `sort.Slice(emails, Date.Before)` pre-sort of `TransformDataset`
    (ascending by date; the Go sort is unstable on equal dates, no claim
    depends on tie order). -/
def sortByDate (l : List EnronEmail) : List EnronEmail := l.foldr insByDate []

/-- `TransformDataset`: sort chronologically, build the persona map, then
    transform each record in order. Returns the messages and the realized
    persona map. -/
def TransformDataset (t0 : GmailTransformer) (emails : List EnronEmail) :
    List GmailMessage × List (String × TestPersona) :=
  let sorted := sortByDate emails
  let pm := buildPersonaMap t0.enronUserName sorted
  let t : GmailTransformer := ⟨t0.enronUserName, t0.userEmail, t0.timeShift, pm⟩
  (sorted.map (transformEmail t), pm)

/-! ## Serializer and date parsing -/

/-- The `dateRange.start` computation of `GenerateTestData`:
    `messages[0].Payload.Headers[4].Value`. `none` models the Go
    index-out-of-range panic (on an empty message list or a header list
    shorter than five). -/
def dateRangeStart (messages : List GmailMessage) : Option String :=
  messages.head?.bind fun m => (m.Payload.Headers.get? 4).map Header.Value

/-- The `dateRange.end` computation of `GenerateTestData`:
    `messages[len-1].Payload.Headers[4].Value`, with `none` for the panic. -/
def dateRangeEnd (messages : List GmailMessage) : Option String :=
  messages.getLast?.bind fun m => (m.Payload.Headers.get? 4).map Header.Value

/-- `getThreadCount`: the number of distinct thread ids. -/
def getThreadCount (messages : List GmailMessage) : Nat :=
  (messages.map GmailMessage.ThreadId).dedup.length

/-- The ordered format list of `parseEnronDate`: RFC1123Z, RFC1123, and the
    three Enron-specific layouts, in source order. -/
def enronDateFormats : List String :=
  ["Mon, 02 Jan 2006 15:04:05 -0700", "Mon, 02 Jan 2006 15:04:05 MST",
   "Mon, 2 Jan 2006 15:04:05 -0700 (MST)", "Mon, 2 Jan 2006 15:04:05 -0700",
   "2 Jan 2006 15:04:05 -0700"]

/-- The format-trial loop of `parseEnronDate`. `tryParse` abstracts the
    library call `time.Parse layout value` (success as `some timestamp`);
    `now` abstracts `time.Now()`. -/
def parseLoop (tryParse : String → String → Option Int) (now : Int)
    (dateStr : String) : List String → Int
  | [] => now
  | f :: fs =>
    match tryParse f dateStr with
    | some t => t
    | none => parseLoop tryParse now dateStr fs

/-- `parseEnronDate`: try the formats in order, fall back to the clock. -/
def parseEnronDate (tryParse : String → String → Option Int) (now : Int)
    (dateStr : String) : Int :=
  parseLoop tryParse now dateStr enronDateFormats

/-! ## Concrete inputs used by the claim theorems -/

/-- Record 1 of the spec section 8 scenario: sent by owner X
    (`xavier@enron.com`) to A and B, subject "Budget". -/
def c1Email1 : EnronEmail :=
  ⟨"msg-001", 1, "xavier@enron.com", ["a@corp.com", "b@corp.com"], [], [],
   "Budget", "Planning the budget.", "sent_items"⟩

/-- Record 2 of the scenario: received by X from A, subject "Re: Budget". -/
def c1Email2 : EnronEmail :=
  ⟨"msg-002", 2, "a@corp.com", ["xavier@enron.com"], [], [],
   "Re: Budget", "Looks good.", "inbox"⟩

/-- Record 3 of the scenario: received by X from C, subject "Meeting notes". -/
def c1Email3 : EnronEmail :=
  ⟨"msg-003", 3, "c@corp.com", ["xavier@enron.com"], [], [],
   "Meeting notes", "Notes attached.", "inbox"⟩

/-- The transformer for the scenario run (owner fragment `xavier`). -/
def c1Transformer0 : GmailTransformer := ⟨"xavier", "test@example.com", 100, []⟩

/-- The scenario pipeline run. -/
def c1Run : List GmailMessage × List (String × TestPersona) :=
  TransformDataset c1Transformer0 [c1Email1, c1Email2, c1Email3]

/-- A record whose sender is `b@x.com` (owner fragment `owner`). -/
def c2EmailB : EnronEmail := ⟨"m-b", 1, "b@x.com", [], [], [], "hi", "", "inbox"⟩

/-- A record whose sender is `a@x.com`. -/
def c2EmailA : EnronEmail := ⟨"m-a", 2, "a@x.com", [], [], [], "yo", "", "inbox"⟩

/-- A record with a Cc-only correspondent `jane.doe@other.com` whose address
    also occurs in the body. -/
def c3Email : EnronEmail :=
  ⟨"m-1", 1, "xavier@enron.com", ["a@corp.com"], ["jane.doe@other.com"], [],
   "hello", "ping jane.doe@other.com please", "sent_items"⟩

/-- The pipeline run on the Cc-only scenario. -/
def c3Run : List GmailMessage × List (String × TestPersona) :=
  TransformDataset ⟨"xavier", "test@example.com", 0, []⟩ [c3Email]

/-- The transformer state during the Cc-only run (its realized persona map). -/
def c3Tr : GmailTransformer := ⟨"xavier", "test@example.com", 0, c3Run.2⟩

/-- A transformer with an empty persona map, zero shift. -/
def c5Tr : GmailTransformer := ⟨"owner", "me@x.com", 0, []⟩

/-- A record with a To recipient but no Cc recipient. -/
def c5Email : EnronEmail :=
  ⟨"m-5", 7, "bob@corp.com", ["x@y.com"], [], [], "s", "b", "inbox"⟩

/-- A record with both a To and a Cc recipient. -/
def c5EmailFull : EnronEmail :=
  ⟨"m-6", 3, "bob@corp.com", ["x@y.com"], ["y@z.com"], [], "s", "b", "inbox"⟩

/-- A record whose only correspondent is on the Cc list. -/
def c6Email : EnronEmail :=
  ⟨"m-c6", 1, "owner@enron.com", [], ["jane@x.com"], [], "s", "", "inbox"⟩

/-- A record with a sender and one To recipient, none containing `owner`. -/
def c6wEmail : EnronEmail :=
  ⟨"m-c6w", 1, "a@corp.com", ["a@corp.com", "b@corp.com"], [], [], "s", "",
   "inbox"⟩

/-- A 250-character body: one letter followed by 249 spaces. -/
def c7CexBody : String := "a" ++ ⟨List.replicate 249 ' '⟩

/-- A 250-character body with no whitespace at all. -/
def c7WitBody : String := ⟨List.replicate 250 'b'⟩

/-- A record with neither To nor Cc recipients: its transformed message has
    only four payload headers. -/
def c10Email : EnronEmail :=
  ⟨"m-10", 2, "bob@corp.com", [], [], [], "s", "b", "inbox"⟩

/-! ## Helper lemmas -/

/-- Frequency map reading after one counter increment. -/
theorem freqLookup_bump (m : List contact) (k a : String) :
    freqLookup (bump m k) a = freqLookup m a + (if a = k then 1 else 0) := by
  induction m with
  | nil =>
    by_cases h : a = k
    · subst h; simp [bump, freqLookup]
    · have h2 : (k == a) = false := beq_eq_false_iff_ne.mpr fun hh => h hh.symm
      simp [bump, freqLookup, h2, h]
  | cons c cs ih =>
    by_cases hk : c.email = k
    · have hk2 : (c.email == k) = true := beq_iff_eq.mpr hk
      by_cases ha : a = k
      · have ha2 : (c.email == a) = true := beq_iff_eq.mpr (hk.trans ha.symm)
        simp [bump, freqLookup, hk2, ha2, ha]
      · have ha2 : (c.email == a) = false :=
          beq_eq_false_iff_ne.mpr fun hh => ha ((hh.symm.trans hk))
        simp [bump, freqLookup, hk2, ha2, ha]
    · have hk2 : (c.email == k) = false := beq_eq_false_iff_ne.mpr hk
      by_cases hc : c.email = a
      · have hc2 : (c.email == a) = true := beq_iff_eq.mpr hc
        have hak : ¬a = k := fun hh => hk (hc.trans hh)
        simp [bump, freqLookup, hk2, hc2, hak]
      · have hc2 : (c.email == a) = false := beq_eq_false_iff_ne.mpr hc
        simp [bump, freqLookup, hk2, hc2, ih]

/-- The To-loop of the counting phase adds exactly the number of To entries
    whose extracted address is `a` (for a countable `a`). -/
theorem freqLookup_toFold (userName a : String) (ha : a ≠ "")
    (ho : goContains a userName = false) (ts : List String) (m : List contact) :
    freqLookup (ts.foldl (freqToStep userName) m) a
      = freqLookup m a + ts.countP (fun r => extractEmail r == a) := by
  induction ts generalizing m with
  | nil => simp
  | cons r ts ih =>
    rw [List.foldl_cons, ih, List.countP_cons]
    have hstep : freqLookup (freqToStep userName m r) a
        = freqLookup m a + (if extractEmail r == a then 1 else 0) := by
      unfold freqToStep
      by_cases hx : extractEmail r = a
      · have hcond : (extractEmail r != "" && !(goContains (extractEmail r) userName)) = true := by
          rw [hx]; simp [bne_iff_ne, ha, ho]
        have hxb : (extractEmail r == a) = true := beq_iff_eq.mpr hx
        simp [hcond, hxb, freqLookup_bump, hx.symm]
      · have hxb : (extractEmail r == a) = false := beq_eq_false_iff_ne.mpr hx
        have hax : ¬a = extractEmail r := fun hh => hx hh.symm
        cases hb : (extractEmail r != "" && !(goContains (extractEmail r) userName)) with
        | true => simp [hb, freqLookup_bump, hax, hxb]
        | false => simp [hb, hxb]
    rw [hstep]
    omega

/-- One record's counting step adds exactly its sender-or-To occurrences of
    `a` (for a countable `a`). -/
theorem freqLookup_freqStep (userName a : String) (ha : a ≠ "")
    (ho : goContains a userName = false) (m : List contact) (e : EnronEmail) :
    freqLookup (freqStep userName m e) a
      = freqLookup m a + (e.From :: e.To).countP (fun r => extractEmail r == a) := by
  unfold freqStep
  rw [freqLookup_toFold userName a ha ho, List.countP_cons]
  have hsender : freqLookup
      (if extractEmail e.From != "" && !(goContains (extractEmail e.From) userName) then
        bump m (extractEmail e.From) else m) a
      = freqLookup m a + (if extractEmail e.From == a then 1 else 0) := by
    by_cases hx : extractEmail e.From = a
    · have hcond : (extractEmail e.From != "" && !(goContains (extractEmail e.From) userName)) = true := by
        rw [hx]; simp [bne_iff_ne, ha, ho]
      have hxb : (extractEmail e.From == a) = true := beq_iff_eq.mpr hx
      simp [hcond, hxb, freqLookup_bump, hx.symm]
    · have hxb : (extractEmail e.From == a) = false := beq_eq_false_iff_ne.mpr hx
      have hax : ¬a = extractEmail e.From := fun hh => hx hh.symm
      cases hb : (extractEmail e.From != "" && !(goContains (extractEmail e.From) userName)) with
      | true => simp [hb, freqLookup_bump, hax, hxb]
      | false => simp [hb, hxb]
  rw [hsender]
  omega

/-- The counting fold over all records, with a running accumulator. -/
theorem freqLookup_fold (userName a : String) (ha : a ≠ "")
    (ho : goContains a userName = false) (es : List EnronEmail) (m : List contact) :
    freqLookup (es.foldl (freqStep userName) m) a
      = freqLookup m a
        + (es.map (fun e => (e.From :: e.To).countP (fun r => extractEmail r == a))).sum := by
  induction es generalizing m with
  | nil => simp
  | cons e es ih =>
    rw [List.foldl_cons, ih, freqLookup_freqStep userName a ha ho, List.map_cons,
      List.sum_cons]
    omega

/-- Regex whitespace is TrimSpace whitespace. -/
theorem reSpace_goSpace {c : Char} (h : reSpace c = true) : goSpace c = true := by
  simp only [reSpace, Bool.or_eq_true, beq_iff_eq] at h
  rcases h with (((h | h) | h) | h) | h <;> subst h <;> decide

/-- Dropping regex whitespace first does not change a TrimSpace left-trim. -/
theorem dropWhile_goSpace_reSpace (l : List Char) :
    (l.dropWhile reSpace).dropWhile goSpace = l.dropWhile goSpace := by
  induction l with
  | nil => rfl
  | cons c cs ih =>
    cases hr : reSpace c with
    | true =>
      have hg := reSpace_goSpace hr
      simp [List.dropWhile_cons, hr, hg, ih]
    | false => simp [List.dropWhile_cons, hr]

/-- Left-trimming commutes into `goTrimL` through a prior regex-space drop. -/
theorem goTrimL_dropWhile_reSpace (l : List Char) :
    goTrimL (l.dropWhile reSpace) = goTrimL l := by
  unfold goTrimL
  rw [dropWhile_goSpace_reSpace]

/-- The date-format trial loop returns the first success, else the clock. -/
theorem parseLoop_headD (tp : String → String → Option Int) (now : Int)
    (s : String) (fs : List String) :
    parseLoop tp now s fs = (fs.filterMap (fun f => tp f s)).headD now := by
  induction fs with
  | nil => rfl
  | cons f fs ih =>
    cases h : tp f s with
    | none => simp [parseLoop, h, ih]
    | some t => simp [parseLoop, h]

/-- With both To and Cc present, the fifth transformed header is the Date
    header carrying the shifted timestamp. -/
theorem transformHeaders_get4 (t : GmailTransformer) (e : EnronEmail)
    (ht : e.To ≠ []) (hc : e.CC ≠ []) :
    (transformHeaders t e)[4]?
      = some ⟨"Date", formatRFC1123Z (e.Date + t.timeShift)⟩ := by
  obtain ⟨x, xs, hxt⟩ := List.exists_cons_of_ne_nil ht
  obtain ⟨y, ys, hyc⟩ := List.exists_cons_of_ne_nil hc
  simp [transformHeaders, hxt, hyc]

/-- The payload headers of a transformed message are `transformHeaders`. -/
theorem transformEmail_headers (t : GmailTransformer) (e : EnronEmail) :
    (transformEmail t e).Payload.Headers = transformHeaders t e := rfl

/-! ## Claim theorems -/

/-- C8: within one run every record is shifted by the same single offset:
    pairwise differences of shifted timestamps equal the original pairwise
    differences, and the relative chronological order is exactly preserved. -/
theorem c8_uniform_time_shift (t : GmailTransformer) (a b : EnronEmail) :
    transformShiftedDate t a - transformShiftedDate t b = a.Date - b.Date
    ∧ (transformShiftedDate t a ≤ transformShiftedDate t b ↔ a.Date ≤ b.Date) := by
  unfold transformShiftedDate
  omega

/-- C9: date parsing tries the ordered format list, returns the first
    success, and substitutes the clock value `now` when no format matches —
    it is a total function and never produces an error. -/
theorem c9_date_parse_fallback (tp : String → String → Option Int) (now : Int)
    (s : String) :
    parseEnronDate tp now s
      = ((enronDateFormats.filterMap (fun f => tp f s)).headD now) :=
  parseLoop_headD tp now s enronDateFormats

/-- C1 counterexample: on the exact section 8 scenario the pipeline produces
    three distinct thread ids, not two (records 1 and 2 have different
    participant sets, hence different thread keys), and the persona map also
    contains the four fixed service addresses, so its key set is not
    exactly A, B, C. The claim, instantiated at this scenario, is false. -/
theorem c1_scenario_cex :
    getThreadCount c1Run.1 = 3
    ∧ "notifications@github.com" ∈ c1Run.2.map Prod.fst
    ∧ ¬(getThreadCount c1Run.1 = 2
        ∧ (c1Run.1.map GmailMessage.Id).dedup.length = 3
        ∧ (c1Run.2.map Prod.fst).toFinset
            = (["a@corp.com", "b@corp.com", "c@corp.com"] : List String).toFinset) := by
  decide

/-- C1 amended: the section 8 scenario produces exactly 3 distinct thread
    ids (records 1 and 2 do not share a thread because their participant
    sets differ), 3 distinct output ids, and a persona map whose key set is
    A, B, C together with the four fixed service addresses. -/
theorem c1_scenario_amended :
    getThreadCount c1Run.1 = 3
    ∧ (c1Run.1.map GmailMessage.Id).dedup.length = 3
    ∧ (c1Run.2.map Prod.fst).toFinset
        = (["a@corp.com", "b@corp.com", "c@corp.com", "notifications@github.com",
            "no-reply@linkedin.com", "united@united.com",
            "alerts@mint.com"] : List String).toFinset := by
  decide

/-- C2 (code bug): the comparator sorts only by descending count, so for the
    tied frequency map built from two one-occurrence senders both
    enumeration orders are comparator-consistent sort outputs, yet they
    assign different personas to `a@x.com` — and the order that Go's map
    iteration can produce gives `a@x.com` the second roster persona, where
    the claimed ascending-lexical tie-break demands the first. -/
theorem c2_tie_break_bug :
    buildContactFreq "owner" [c2EmailB, c2EmailA] = [⟨"b@x.com", 1⟩, ⟨"a@x.com", 1⟩]
    ∧ sortedByGoLess [⟨"b@x.com", 1⟩, ⟨"a@x.com", 1⟩] = true
    ∧ sortedByGoLess [⟨"a@x.com", 1⟩, ⟨"b@x.com", 1⟩] = true
    ∧ List.lookup "a@x.com" (assignPersonas [] [⟨"b@x.com", 1⟩, ⟨"a@x.com", 1⟩])
        = some ⟨"David Kumar", "david.kumar@techcorp.com", "manager", "TechCorp"⟩
    ∧ List.lookup "a@x.com" (assignPersonas [] [⟨"a@x.com", 1⟩, ⟨"b@x.com", 1⟩])
        = some ⟨"Sarah Chen", "sarah.chen@gmail.com", "sister", ""⟩ := by
  decide

/-- C3 counterexample: `jane.doe@other.com` appears only on the Cc list, so
    it never enters the persona map; the rewritten Cc header carries the
    synthesized persona address `jane doe@other.com` while the body literal
    is left as `jane.doe@other.com` — two different replacements for the
    same original address. -/
theorem c3_persona_stability_cex :
    c3Run.1.map (fun m => m.Payload.Headers)
      = [[⟨"From", "You <test@example.com>"⟩,
          ⟨"To", "Sarah Chen <sarah.chen@gmail.com>"⟩,
          ⟨"Cc", "Jane Doe <jane doe@other.com>"⟩,
          ⟨"Subject", "hello"⟩,
          ⟨"Date", "rfc1123z[1]"⟩,
          ⟨"Message-ID", "<md5[m-1]@mail.gmail.com>"⟩]]
    ∧ transformAddressLiteral c3Tr "jane.doe@other.com" = "jane.doe@other.com"
    ∧ ("jane doe@other.com" : String) ≠ "jane.doe@other.com" := by
  decide

/-- C3 amended: for every address that is in the persona map (every From/To
    correspondent is) and does not contain the owner fragment, every header
    occurrence is rewritten to that persona's display name and address and
    every body literal occurrence is rewritten to the same persona's
    address; addresses outside the map (such as Cc-only correspondents) get
    a synthesized header persona but are left unchanged in bodies. -/
theorem c3_persona_stability (t : GmailTransformer) (a raw lit : String)
    (p : TestPersona)
    (hmem : List.lookup a t.personaMap = some p)
    (hown : goContains a t.enronUserName = false)
    (hraw : extractEmail raw = a)
    (hlit : lowerStr lit = a) :
    transformEmailAddress t raw = p.Name ++ " <" ++ p.Email ++ ">"
    ∧ transformAddressLiteral t lit = p.Email := by
  constructor
  · simp [transformEmailAddress, hraw, hown, hmem]
  · simp [transformAddressLiteral, hlit, hown, hmem]

/-- C3 witness: the mapped address `a@corp.com` of the Cc-only scenario run
    resolves to the same persona in a header form and in an upper-cased body
    literal form. -/
theorem c3_persona_stability_witness :
    List.lookup "a@corp.com" c3Tr.personaMap
        = some ⟨"Sarah Chen", "sarah.chen@gmail.com", "sister", ""⟩
    ∧ transformEmailAddress c3Tr "a@corp.com" = "Sarah Chen <sarah.chen@gmail.com>"
    ∧ transformAddressLiteral c3Tr "A@CORP.com" = "sarah.chen@gmail.com" :=
  ⟨by decide,
   (c3_persona_stability c3Tr "a@corp.com" "a@corp.com" "A@CORP.com"
      ⟨"Sarah Chen", "sarah.chen@gmail.com", "sister", ""⟩
      (by decide) (by decide) (by decide) (by decide)).1,
   (c3_persona_stability c3Tr "a@corp.com" "a@corp.com" "A@CORP.com"
      ⟨"Sarah Chen", "sarah.chen@gmail.com", "sister", ""⟩
      (by decide) (by decide) (by decide) (by decide)).2⟩

/-- C4 counterexample: the prefix alternation is case-sensitive, so the
    lower-case casing `re:` is not stripped: normalizing `re: Budget` yields
    `re: budget`, not the normalization `budget` of `Budget`. -/
theorem c4_subject_norm_cex :
    cleanSubjectForThreading ("re:" ++ " " ++ "Budget") = "re: budget"
    ∧ cleanSubjectForThreading "Budget" = "budget"
    ∧ cleanSubjectForThreading ("re:" ++ " " ++ "Budget")
        ≠ cleanSubjectForThreading "Budget" := by
  decide

/-- C4 amended: stripping happens exactly for the five literal casings
    Re:, RE:, Fwd:, FW:, Fw: (one prefix, with its following whitespace);
    for each of those, normalizing the prefixed subject equals trimming and
    lower-casing the bare subject. Other casings are not stripped. -/
theorem c4_subject_norm (p : String)
    (hp : p ∈ (["Re:", "RE:", "Fwd:", "FW:", "Fw:"] : List String))
    (s : String) :
    cleanSubjectForThreading (p ++ " " ++ s) = lowerStr (goTrimSpace s) := by
  simp only [List.mem_cons, List.not_mem_nil, or_false] at hp
  rcases hp with rfl | rfl | rfl | rfl | rfl
  · rw [show cleanSubjectForThreading ("Re:" ++ " " ++ s)
        = lowerStr ⟨goTrimL (s.data.dropWhile reSpace)⟩ from rfl,
      goTrimL_dropWhile_reSpace]
    rfl
  · rw [show cleanSubjectForThreading ("RE:" ++ " " ++ s)
        = lowerStr ⟨goTrimL (s.data.dropWhile reSpace)⟩ from rfl,
      goTrimL_dropWhile_reSpace]
    rfl
  · rw [show cleanSubjectForThreading ("Fwd:" ++ " " ++ s)
        = lowerStr ⟨goTrimL (s.data.dropWhile reSpace)⟩ from rfl,
      goTrimL_dropWhile_reSpace]
    rfl
  · rw [show cleanSubjectForThreading ("FW:" ++ " " ++ s)
        = lowerStr ⟨goTrimL (s.data.dropWhile reSpace)⟩ from rfl,
      goTrimL_dropWhile_reSpace]
    rfl
  · rw [show cleanSubjectForThreading ("Fw:" ++ " " ++ s)
        = lowerStr ⟨goTrimL (s.data.dropWhile reSpace)⟩ from rfl,
      goTrimL_dropWhile_reSpace]
    rfl

/-- C4 witness: instantiating the amended claim at `Re:` and `Budget`. -/
theorem c4_subject_norm_witness :
    ("Re:" : String) ∈ (["Re:", "RE:", "Fwd:", "FW:", "Fw:"] : List String)
    ∧ cleanSubjectForThreading ("Re:" ++ " " ++ "Budget")
        = lowerStr (goTrimSpace "Budget") :=
  ⟨by decide, c4_subject_norm "Re:" (by decide) "Budget"⟩

/-- C5 counterexample: a first message with a To recipient but no Cc
    recipient has the Message-ID header at index 4, so `dateRange.start`
    reads the Message-ID value even though a Date header is present. -/
theorem c5_date_range_cex :
    dateRangeStart [transformEmail c5Tr c5Email] = some "<md5[m-5]@mail.gmail.com>"
    ∧ (⟨"Date", formatRFC1123Z (c5Email.Date + c5Tr.timeShift)⟩ : Header)
        ∈ (transformEmail c5Tr c5Email).Payload.Headers
    ∧ dateRangeStart [transformEmail c5Tr c5Email]
        ≠ some (formatRFC1123Z (c5Email.Date + c5Tr.timeShift)) := by
  decide

/-- C5 amended: when both the first and the last message of the run (in
    processing order) come from records with a non-empty To list and a
    non-empty Cc list, `Headers[4]` is the Date header, and the metadata
    date range carries exactly their shifted Date header values. -/
theorem c5_date_range (t : GmailTransformer) (e1 e2 : EnronEmail)
    (mid : List GmailMessage)
    (h1t : e1.To ≠ []) (h1c : e1.CC ≠ []) (h2t : e2.To ≠ []) (h2c : e2.CC ≠ []) :
    dateRangeStart (transformEmail t e1 :: (mid ++ [transformEmail t e2]))
        = some (formatRFC1123Z (e1.Date + t.timeShift))
    ∧ dateRangeEnd (transformEmail t e1 :: (mid ++ [transformEmail t e2]))
        = some (formatRFC1123Z (e2.Date + t.timeShift)) := by
  constructor
  · simp [dateRangeStart, transformEmail_headers, transformHeaders_get4 t e1 h1t h1c]
  · have hlast : (transformEmail t e1 :: (mid ++ [transformEmail t e2])).getLast?
        = some (transformEmail t e2) := by
      rw [show transformEmail t e1 :: (mid ++ [transformEmail t e2])
          = (transformEmail t e1 :: mid) ++ [transformEmail t e2] from rfl]
      exact List.getLast?_concat _
    simp [dateRangeEnd, hlast, transformEmail_headers, transformHeaders_get4 t e2 h2t h2c]

/-- C5 witness: a two-message run of the record with both To and Cc present
    yields its shifted Date header value at both ends of the date range. -/
theorem c5_date_range_witness :
    c5EmailFull.To ≠ [] ∧ c5EmailFull.CC ≠ []
    ∧ dateRangeStart
        (transformEmail c5Tr c5EmailFull :: ([] ++ [transformEmail c5Tr c5EmailFull]))
        = some (formatRFC1123Z (c5EmailFull.Date + c5Tr.timeShift))
    ∧ dateRangeEnd
        (transformEmail c5Tr c5EmailFull :: ([] ++ [transformEmail c5Tr c5EmailFull]))
        = some (formatRFC1123Z (c5EmailFull.Date + c5Tr.timeShift)) :=
  ⟨by decide, by decide,
   (c5_date_range c5Tr c5EmailFull c5EmailFull []
      (by decide) (by decide) (by decide) (by decide)).1,
   (c5_date_range c5Tr c5EmailFull c5EmailFull []
      (by decide) (by decide) (by decide) (by decide)).2⟩

/-- C6 counterexample: `jane@x.com` occurs on a record's Cc list, but the
    frequency counter for it stays at zero — CC (and BCC) occurrences are
    never counted, contradicting the claimed one-increment-per-occurrence
    over To, Cc and Bcc. -/
theorem c6_freq_count_cex :
    c6Email.CC = ["jane@x.com"]
    ∧ freqLookup (buildContactFreq "owner" [c6Email]) "jane@x.com" = 0 := by
  decide

/-- C6 amended: for every countable address (non-empty extraction, not
    containing the owner fragment), the frequency counter equals the number
    of its occurrences as a record's sender or To recipient, summed over all
    records; Cc and Bcc occurrences contribute nothing. -/
theorem c6_freq_count (userName : String) (emails : List EnronEmail) (a : String)
    (ha : a ≠ "") (ho : goContains a userName = false) :
    freqLookup (buildContactFreq userName emails) a
      = (emails.map
          (fun e => (e.From :: e.To).countP (fun r => extractEmail r == a))).sum := by
  unfold buildContactFreq
  rw [freqLookup_fold userName a ha ho]
  simp [freqLookup]

/-- C6 witness: instantiating the amended claim at a record whose sender and
    To list mention `a@corp.com` twice in total as a To recipient and once
    as the sender. -/
theorem c6_freq_count_witness :
    ("a@corp.com" : String) ≠ ""
    ∧ goContains "a@corp.com" "owner" = false
    ∧ freqLookup (buildContactFreq "owner" [c6wEmail]) "a@corp.com"
        = ([c6wEmail].map
            (fun e => (e.From :: e.To).countP
              (fun r => extractEmail r == "a@corp.com"))).sum :=
  ⟨by decide, by decide,
   c6_freq_count "owner" [c6wEmail] "a@corp.com" (by decide) (by decide)⟩

/-- Whitespace collapsing leaves no newline in its output (every newline is
    regex whitespace and becomes part of a single-space run). -/
theorem nl_not_mem_collapseAux (b : Bool) (l : List Char) :
    '\n' ∉ collapseAux b l := by
  induction l generalizing b with
  | nil => cases b <;> simp [collapseAux]
  | cons c cs ih =>
    cases hr : reSpace c with
    | true =>
      cases b with
      | true =>
        rw [show collapseAux true (c :: cs) = collapseAux true cs from by
          simp [collapseAux, hr]]
        exact ih true
      | false =>
        rw [show collapseAux false (c :: cs) = ' ' :: collapseAux true cs from by
          simp [collapseAux, hr]]
        simp only [List.mem_cons, not_or]
        exact ⟨by decide, ih true⟩
    | false =>
      have hc : ('\n' : Char) ≠ c := by
        intro h
        rw [← h] at hr
        exact absurd hr (by decide)
      have hx : ∀ b2 : Bool, collapseAux b2 (c :: cs) = c :: collapseAux false cs := by
        intro b2
        simp [collapseAux, hr]
      rw [hx b]
      simp only [List.mem_cons, not_or]
      exact ⟨hc, ih false⟩

/-- `strings.Split` on a separator absent from the input returns the whole
    input as the only fragment. -/
theorem splitChar_no_occ (c : Char) (l : List Char) (h : c ∉ l) :
    splitChar c l = [l] := by
  induction l with
  | nil => rfl
  | cons x xs ih =>
    simp only [List.mem_cons, not_or] at h
    obtain ⟨hx, hxs⟩ := h
    have hxc : (x == c) = false := beq_eq_false_iff_ne.mpr fun hh => hx hh.symm
    simp [splitChar, ih hxs, hxc]

/-- The head surviving a `dropWhile` fails the predicate. -/
theorem dropWhile_head_false (p : Char → Bool) :
    ∀ (l : List Char) (c : Char) (t : List Char),
      l.dropWhile p = c :: t → p c = false := by
  intro l
  induction l with
  | nil => intro c t h; simp [List.dropWhile] at h
  | cons x xs ih =>
    intro c t h
    rw [List.dropWhile_cons] at h
    cases hp : p x with
    | true =>
      rw [hp] at h
      simp at h
      exact ih c t h
    | false =>
      rw [hp] at h
      simp at h
      rw [← h.1]
      exact hp

/-- `dropWhile` of a list ending in `c` is empty or still ends in `c`. -/
theorem dropWhile_append_last (p : Char → Bool) (l : List Char) (c : Char) :
    (l ++ [c]).dropWhile p = [] ∨ ∃ zs, (l ++ [c]).dropWhile p = zs ++ [c] := by
  induction l with
  | nil =>
    cases hp : p c with
    | true => left; simp [List.dropWhile, hp]
    | false => right; exact ⟨[], by simp [List.dropWhile, hp]⟩
  | cons a l ih =>
    rw [List.cons_append, List.dropWhile_cons]
    cases hp : p a with
    | true => simpa using ih
    | false =>
      right
      exact ⟨a :: l, by simp⟩

/-- A trimmed character list is empty or starts with a non-space character. -/
theorem goTrimL_head (l : List Char) :
    goTrimL l = [] ∨ ∃ c t, goTrimL l = c :: t ∧ goSpace c = false := by
  unfold goTrimL
  cases h1 : l.dropWhile goSpace with
  | nil => left; simp
  | cons c t =>
    have hc : goSpace c = false := dropWhile_head_false goSpace l c t h1
    rw [List.reverse_cons]
    rcases dropWhile_append_last goSpace t.reverse c with h2 | ⟨zs, h2⟩
    · left
      rw [h2]
      rfl
    · right
      refine ⟨c, zs.reverse, ?_, hc⟩
      rw [h2, List.reverse_append]
      simp

/-- The cleaned body `generateSnippet` iterates over is empty or starts with
    a non-space character. -/
theorem cleanedBody_head (body : String) :
    cleanedBody body = [] ∨ ∃ c t, cleanedBody body = c :: t ∧ goSpace c = false := by
  unfold cleanedBody collapseWs
  rcases goTrimL_head body.data with h | ⟨c, t, h, hc⟩
  · left
    rw [h]
    rfl
  · have hre : reSpace c = false := by
      cases hrr : reSpace c with
      | true => simp [reSpace_goSpace hrr] at hc
      | false => rfl
    right
    refine ⟨c, collapseAux false t, ?_, hc⟩
    rw [h]
    simp [collapseAux, hre]

/-- Trimming keeps a string that starts with a non-space character and ends
    in three dots. -/
theorem goTrimL_keep (c : Char) (hc : goSpace c = false) (mid : List Char) :
    goTrimL (c :: (mid ++ ['.', '.', '.'])) = c :: (mid ++ ['.', '.', '.']) := by
  have hdot : goSpace ('.' : Char) = false := by decide
  unfold goTrimL
  have h1 : List.dropWhile goSpace (c :: (mid ++ ['.', '.', '.']))
      = c :: (mid ++ ['.', '.', '.']) := by
    simp [List.dropWhile_cons, hc]
  rw [h1]
  have hrev : (c :: (mid ++ ['.', '.', '.'])).reverse
      = '.' :: ('.' :: ('.' :: (mid.reverse ++ [c]))) := by
    simp [List.reverse_cons, List.reverse_append]
  rw [hrev]
  have h2 : List.dropWhile goSpace ('.' :: ('.' :: ('.' :: (mid.reverse ++ [c]))))
      = '.' :: ('.' :: ('.' :: (mid.reverse ++ [c]))) := by
    simp [List.dropWhile_cons, hdot]
  rw [h2, ← hrev, List.reverse_reverse]

/-- C7 counterexample: a 250-character plain-text body (one letter and 249
    spaces) with no quote marker anywhere collapses to a single character,
    so its snippet is `a`, not a 100-character ellipsis-terminated string. -/
theorem c7_snippet_cex :
    c7CexBody.length = 250
    ∧ goContains c7CexBody ">" = false
    ∧ goContains c7CexBody "-----Original Message-----" = false
    ∧ generateSnippet c7CexBody = "a"
    ∧ (generateSnippet c7CexBody).length ≠ 100 := by
  decide

/-- C7 amended: for every body with no quote markers whose trimmed,
    whitespace-collapsed text is still at least 100 characters long (every
    250-character body without whitespace runs qualifies), the snippet is
    exactly 100 characters and ends in three dots. -/
theorem c7_snippet (body : String)
    (hlen : 100 ≤ (cleanedBody body).length)
    (hq : listStarts (cleanedBody body) (">".data) = false)
    (hm : listHasSub (cleanedBody body) ("-----Original Message-----".data) = false) :
    (generateSnippet body).length = 100
    ∧ goEnds (generateSnippet body) "..." = true := by
  obtain ⟨c, t, hct, hc⟩ : ∃ c t, cleanedBody body = c :: t ∧ goSpace c = false := by
    rcases cleanedBody_head body with h | h
    · rw [h] at hlen
      simp at hlen
    · exact h
  have hnl : '\n' ∉ cleanedBody body := nl_not_mem_collapseAux false (goTrimL body.data)
  have hsplit : splitNL (cleanedBody body) = [cleanedBody body] :=
    splitChar_no_occ '\n' (cleanedBody body) hnl
  have hSL : snippetLoop [cleanedBody body] ""
      = "" ++ (⟨cleanedBody body⟩ : String) ++ " " := by
    simp only [snippetLoop, hq, hm, Bool.or_self, Bool.false_eq_true, if_false]
    exact ite_self _
  have hgen : generateSnippet body = goTrimSpace
      (if 100 < (snippetLoop (splitNL (cleanedBody body)) "").length
        then (⟨(snippetLoop (splitNL (cleanedBody body)) "").data.take 97⟩ : String) ++ "..."
        else snippetLoop (splitNL (cleanedBody body)) "") := rfl
  have hlen2 : ("" ++ (⟨cleanedBody body⟩ : String) ++ " ").length
      = (cleanedBody body).length + 1 := by
    show (("" ++ (⟨cleanedBody body⟩ : String) ++ " ").data).length = _
    rw [show ("" ++ (⟨cleanedBody body⟩ : String) ++ " ").data
        = cleanedBody body ++ [' '] from rfl]
    rw [List.length_append]
    rfl
  have hgt : 100 < ("" ++ (⟨cleanedBody body⟩ : String) ++ " ").length := by
    rw [hlen2]
    omega
  have hdata97 : ("" ++ (⟨cleanedBody body⟩ : String) ++ " ").data.take 97
      = c :: (t.take 96) := by
    rw [show ("" ++ (⟨cleanedBody body⟩ : String) ++ " ").data
        = cleanedBody body ++ [' '] from rfl]
    rw [List.take_append_of_le_length (by omega), hct]
    rfl
  have hres : generateSnippet body = ⟨c :: (t.take 96 ++ ['.', '.', '.'])⟩ := by
    rw [hgen, hsplit, hSL, if_pos hgt, hdata97]
    rw [show ((⟨c :: (t.take 96)⟩ : String) ++ "...")
        = (⟨c :: (t.take 96 ++ ['.', '.', '.'])⟩ : String) from rfl]
    rw [show goTrimSpace (⟨c :: (t.take 96 ++ ['.', '.', '.'])⟩ : String)
        = (⟨goTrimL (c :: (t.take 96 ++ ['.', '.', '.']))⟩ : String) from rfl]
    rw [goTrimL_keep c hc]
  have hlen1 : (cleanedBody body).length = t.length + 1 := by
    rw [hct]
    rfl
  have h96 : (t.take 96).length = 96 := by
    rw [List.length_take]
    omega
  constructor
  · rw [hres]
    show (c :: (t.take 96 ++ ['.', '.', '.'])).length = 100
    simp [h96]
  · rw [hres]
    show listStarts (c :: (t.take 96 ++ ['.', '.', '.'])).reverse
      ("...".data.reverse) = true
    rw [show ("...".data.reverse) = ['.', '.', '.'] from rfl, List.reverse_cons,
      List.reverse_append]
    simp [listStarts, List.append_assoc]

/-- C7 witness: the 250-character body of identical letters (no whitespace
    runs, no markers) produces a 100-character snippet ending in dots. -/
theorem c7_snippet_witness :
    100 ≤ (cleanedBody c7WitBody).length
    ∧ listStarts (cleanedBody c7WitBody) (">".data) = false
    ∧ listHasSub (cleanedBody c7WitBody) ("-----Original Message-----".data) = false
    ∧ (generateSnippet c7WitBody).length = 100
    ∧ goEnds (generateSnippet c7WitBody) "..." = true :=
  ⟨by decide, by decide, by decide,
   (c7_snippet c7WitBody (by decide) (by decide) (by decide)).1,
   (c7_snippet c7WitBody (by decide) (by decide) (by decide)).2⟩

/-- C10: serialization is partial at its interface: the aggregate-metadata
    date range reads `messages[0]` and `Payload.Headers[4]`, so it fails
    (modelled by `none`, a Go index-out-of-range panic) on an empty message
    list and whenever the first or last message carries fewer than five
    payload headers; a transformed record with no To and no Cc recipients
    has exactly four. -/
theorem c10_metadata_panics :
    (dateRangeStart ([] : List GmailMessage) = none
      ∧ dateRangeEnd ([] : List GmailMessage) = none)
    ∧ (∀ (m : GmailMessage) (rest : List GmailMessage),
        m.Payload.Headers.length < 5 → dateRangeStart (m :: rest) = none)
    ∧ (∀ (m : GmailMessage) (pre : List GmailMessage),
        m.Payload.Headers.length < 5 → dateRangeEnd (pre ++ [m]) = none)
    ∧ (∀ (t : GmailTransformer) (e : EnronEmail), e.To = [] → e.CC = [] →
        (transformEmail t e).Payload.Headers.length = 4) := by
  refine ⟨⟨rfl, rfl⟩, ?_, ?_, ?_⟩
  · intro m rest h
    have h4 : m.Payload.Headers.get? 4 = none := List.get?_eq_none.mpr (by omega)
    simp [dateRangeStart, h4]
    omega
  · intro m pre h
    have h4 : m.Payload.Headers.get? 4 = none := List.get?_eq_none.mpr (by omega)
    simp [dateRangeEnd, List.getLast?_concat, h4]
    omega
  · intro t e hT hC
    rw [transformEmail_headers]
    simp [transformHeaders, hT, hC]

/-- C10 witness: the record with no To and no Cc yields four headers, and
    both date-range reads fail on the singleton list of its message. -/
theorem c10_metadata_panics_witness :
    (transformEmail c5Tr c10Email).Payload.Headers.length < 5
    ∧ dateRangeStart [transformEmail c5Tr c10Email] = none
    ∧ dateRangeEnd [transformEmail c5Tr c10Email] = none :=
  ⟨by decide,
   c10_metadata_panics.2.1 (transformEmail c5Tr c10Email) [] (by decide),
   c10_metadata_panics.2.2.1 (transformEmail c5Tr c10Email) [] (by decide)⟩

end GmailEmulator
